import Mathlib

/-!
Verification of the `wave` VCD-waveform library (crate `wavetk`).

This file gives a shallow embedding, in Lean, of the data model and the
operations of the crate:

* `src/wavetk/src/types.rs`   — variable kinds and descriptors;
* `src/wavetk/src/simulation.rs` — the `StateSimulation` engine, embedded at
  the level of the VCD command stream (the file-backed parser is abstracted
  as the list of commands it has yet to emit);
* `src/wavetk/src/utils.rs`   — the refill `Buffer`, embedded byte for byte;
* `src/wavetk/src/vcd.rs`     — the nom-based streaming grammar and the
  `VcdStreamParser` refill/retry machinery, embedded byte for byte.

Theorems about these definitions settle the specification claims.
-/

namespace Wave

/-- Error enumeration of `src/wavetk/src/vcd.rs` (`VcdError`).  The payload of
`IoError` is dropped in the embedding. -/
inductive VcdError where
  | IoError
  | ParseError
  | MissingData
  | PartialHeader
  | Utf8Error
  | EndOfInput
deriving DecidableEq, Repr

/-- Decidable equality for `Except` results, so that concrete runs can be
checked by `decide`. -/
instance exceptDecEq {ε α : Type} [DecidableEq ε] [DecidableEq α] :
    DecidableEq (Except ε α) := fun x y =>
  match x, y with
  | Except.ok a, Except.ok b =>
    (match decEq a b with
     | isTrue h => isTrue (congrArg Except.ok h)
     | isFalse h => isFalse (fun hh => h (Except.ok.inj hh)))
  | Except.error a, Except.error b =>
    (match decEq a b with
     | isTrue h => isTrue (congrArg Except.error h)
     | isFalse h => isFalse (fun hh => h (Except.error.inj hh)))
  | Except.ok _, Except.error _ => isFalse (fun hh => Except.noConfusion hh)
  | Except.error _, Except.ok _ => isFalse (fun hh => Except.noConfusion hh)

/-- Abnormal outcomes of the simulation operations.  `vcdError e` models a
returned `Err(e)`; the other constructors model Rust panics: a failed
`expect`/`unwrap` on a map lookup, the `assert_eq!` on widths (which compares
an `Option<usize>` against `Some(width)`), and an out-of-bounds slice or
index. -/
inductive SimError where
  | vcdError (e : VcdError)
  | panicMissingKey (id : String)
  | panicMissingWidth (id : String)
  | panicAssertWidth (found : Option Nat) (expected : Nat)
  | panicIndex
deriving DecidableEq, Repr

/-- Variable kinds from `src/wavetk/src/types.rs` (`VariableKind`), with the
same constructor names and order (the `repr(u8)` values are the constructor
indices). -/
inductive VariableKind where
  | VcdEvent
  | VcdInteger
  | VcdParameter
  | VcdReal
  | VcdRealParameter
  | VcdReg
  | VcdSupply0
  | VcdSupply1
  | VcdTime
  | VcdTri
  | VcdTriand
  | VcdTrior
  | VcdTrireg
  | VcdTri0
  | VcdTri1
  | VcdWand
  | VcdWire
  | VcdWor
  | VcdPort
  | VcdSparray
  | VcdRealtime
  | GenString
  | SvBit
  | SvLogic
  | SvInt
  | SvShortint
  | SvLongint
  | SvByte
  | SvEnum
  | SvShortreal
  | End
deriving DecidableEq, Repr

/-- Embedding of `impl From<&str> for VariableKind` in
`src/wavetk/src/types.rs`: the fixed table mapping a `$var` kind token to the
enumerated kind, with fall-through to `End`.  Note that the source maps the
token "wand" to `VcdTriand`. -/
def VariableKind.from_str (name : String) : VariableKind :=
  match name with
  | "event" => VariableKind.VcdEvent
  | "integer" => VariableKind.VcdInteger
  | "parameter" => VariableKind.VcdParameter
  | "real" => VariableKind.VcdReal
  | "reg" => VariableKind.VcdReg
  | "supply0" => VariableKind.VcdSupply0
  | "supply1" => VariableKind.VcdSupply1
  | "time" => VariableKind.VcdTime
  | "tri" => VariableKind.VcdTri
  | "triand" => VariableKind.VcdTriand
  | "trior" => VariableKind.VcdTrior
  | "trireg" => VariableKind.VcdTrireg
  | "tri0" => VariableKind.VcdTri0
  | "tri1" => VariableKind.VcdTri1
  | "wand" => VariableKind.VcdTriand
  | "wire" => VariableKind.VcdWire
  | "wor" => VariableKind.VcdWor
  | _ => VariableKind.End

/-- Variable descriptor from `src/wavetk/src/types.rs` (`VariableInfo`).  The
fields `name`, `range`, `handle`, `scope` and `direction` are carried by the
source structure but are never read by the embedded operations, so they are
omitted here; `width` is the `u32` width read as a natural number (the source
only ever uses it as `v.width as usize`). -/
structure VariableInfo where
  id : String
  kind : VariableKind
  width : Nat
deriving DecidableEq, Repr

/-- Embedding of `logic_level` in `src/wavetk/src/simulation.rs`.  The source
matches on `c as u8`, i.e. on the low eight bits of the character scalar
value: `b'0' = 48`, `b'1' = 49`, `b'U' = 85`, `b'u' = 117`, `b'W' = 87`,
`b'w' = 119`, `b'Z' = 90`, `b'z' = 122`, `b'X' = 88`, `b'x' = 120`. -/
def logic_level (c : Char) : Int :=
  match c.toNat % 256 with
  | 48 => 0
  | 49 => 1
  | 85 => -1
  | 117 => -1
  | 87 => -2
  | 119 => -2
  | 90 => -3
  | 122 => -3
  | 88 => -4
  | 120 => -4
  | _ => -5

/-- Value payload of a value-change record (`VcdValue` in
`src/wavetk/src/vcd.rs`).  Borrowed string slices become lists of
characters. -/
inductive VcdValue where
  | Bit (c : Char)
  | Vector (x : List Char)
  | Real (r : List Char)
deriving DecidableEq, Repr

/-- Value-change record (`VcdChange` in `src/wavetk/src/vcd.rs`). -/
structure VcdChange where
  var_id : String
  value : VcdValue
deriving DecidableEq, Repr

/-- Commands emitted by the parser (`VcdCommand` in `src/wavetk/src/vcd.rs`).
The `SetCycle` payload is the parsed `u64`, kept as a natural number; the
simulation casts it with `as i64` (see `u64_to_i64`). -/
inductive VcdCommand where
  | Directive (name : List Char)
  | VcdEnd
  | SetCycle (c : Nat)
  | ValueChange (v : VcdChange)
deriving DecidableEq, Repr

/-- Rust `u64 as i64` cast: reinterpret the low 64 bits as a signed value. -/
def u64_to_i64 (c : Nat) : Int :=
  if c % 2 ^ 64 < 2 ^ 63 then (c % 2 ^ 64 : Int) else (c % 2 ^ 64 : Int) - 2 ^ 64

/-- Lookup in an association list, embedding `HashMap::get`.  The simulation
only ever inserts a key that is absent, so an association list with
first-match lookup is an exact model of the map. -/
def map_get (m : List (String × Nat)) (k : String) : Option Nat :=
  match m with
  | [] => none
  | p :: rest => if p.1 = k then some p.2 else map_get rest k

/-- Command-level state of `StateSimulation` (`src/wavetk/src/simulation.rs`).
The file-backed `VcdParser<File>` is abstracted by two fields: `commands`,
the list of VCD commands the parser has yet to emit for the body of the
file, and `end_of_input`, its end-of-input flag; `header` is the result of
`parser.header()` (`None` until the header is sealed).  The hash maps
`var_offset` / `var_width` are association lists (keys are inserted only when
absent), the hash set `tracked_var` is a list, and the state vector of `i8`
is a list of integers. -/
structure StateSimulation where
  commands : List VcdCommand
  end_of_input : Bool
  header : Option (List VariableInfo)
  state : List Int
  var_offset : List (String × Nat)
  var_width : List (String × Nat)
  tracked_var : List String
  previous_cycle : Int
  current_cycle : Int
deriving DecidableEq, Repr

namespace StateSimulation

/-- Embedding of `StateSimulation::new`: empty maps and state, both cycle
counters at `-1`.  The fresh parser is abstracted by the full command stream
of the file and a cleared end-of-input flag. -/
def new (cmds : List VcdCommand) : StateSimulation :=
  { commands := cmds
    end_of_input := false
    header := none
    state := []
    var_offset := []
    var_width := []
    tracked_var := []
    previous_cycle := -1
    current_cycle := -1 }

/-- Embedding of `StateSimulation::done`, i.e. `VcdParser::done`: end of
input was observed and the live window (here: the remaining command stream)
is empty. -/
def done (s : StateSimulation) : Bool :=
  s.end_of_input && s.commands.isEmpty

/-- Embedding of `StateSimulation::track_variables`. -/
def track_variables (s : StateSimulation) (vars : List String) : StateSimulation :=
  { s with tracked_var := s.tracked_var ++ vars }

end StateSimulation

/-- Rust `Vec::resize(n, x)`: truncate to `n` elements or pad with `x`. -/
def list_resize (l : List Int) (n : Nat) (x : Int) : List Int :=
  if n ≤ l.length then l.take n else l ++ List.replicate (n - l.length) x

/-- One step of the allocation loop in `StateSimulation::allocate_state`
(`src/wavetk/src/simulation.rs`), for one header variable `v`.  The
accumulator carries `(var_offset, var_width, offset)`.  In the duplicate-id
branch the source runs
`assert_eq!(self.var_width.get(&v.id).cloned(), Some(v.width as usize))`;
a failed assertion is the `panicAssertWidth` outcome. -/
def alloc_step (tracked : List String)
    (acc : List (String × Nat) × List (String × Nat) × Nat) (v : VariableInfo) :
    Except SimError (List (String × Nat) × List (String × Nat) × Nat) :=
  if (map_get acc.1 v.id).isSome then
    if map_get acc.2.1 v.id = some v.width then
      Except.ok acc
    else
      Except.error (SimError.panicAssertWidth (map_get acc.2.1 v.id) v.width)
  else if v.kind = VariableKind.VcdReal then
    Except.ok acc
  else if !tracked.isEmpty && !tracked.contains v.id then
    Except.ok acc
  else
    Except.ok (acc.1 ++ [(v.id, acc.2.2)], acc.2.1 ++ [(v.id, v.width)], acc.2.2 + v.width)

/-- The `for v in variables` loop of `StateSimulation::allocate_state` over
the remaining variables, carrying the accumulator. -/
def alloc_go (tracked : List String) :
    List VariableInfo → (List (String × Nat) × List (String × Nat) × Nat) →
    Except SimError (List (String × Nat) × List (String × Nat) × Nat)
  | [], acc => Except.ok acc
  | v :: rest, acc =>
    match alloc_step tracked acc v with
    | Except.ok acc1 => alloc_go tracked rest acc1
    | Except.error e => Except.error e

/-- The allocation loop of `StateSimulation::allocate_state` run over a
variable list, starting from cleared maps and offset `0`. -/
def alloc_core (tracked : List String) (vars : List VariableInfo) :
    Except SimError (List (String × Nat) × List (String × Nat) × Nat) :=
  alloc_go tracked vars ([], [], 0)

/-- Embedding of `StateSimulation::allocate_state`: requires a sealed header
(`PartialHeader` otherwise), clears and rebuilds the maps, and resizes the
state vector to the total allocated width, zero-filling new bytes. -/
def StateSimulation.allocate_state (s : StateSimulation) : Except SimError StateSimulation :=
  match s.header with
  | none => Except.error (SimError.vcdError VcdError.PartialHeader)
  | some vars =>
    match alloc_core s.tracked_var vars with
    | Except.error e => Except.error e
    | Except.ok r =>
      Except.ok { s with var_offset := r.1, var_width := r.2.1,
                         state := list_resize s.state r.2.2 0 }

/-- Write the logic levels of the characters `x` into the state vector
starting at `base`: the loop
`for (el, c) in state[base..base + w].iter_mut().zip(x.chars())` with
`w = x.len()` (the preceding assertion guarantees equality). -/
def write_bits (state : List Int) (base : Nat) (x : List Char) : List Int :=
  state.take base ++ x.map logic_level ++ state.drop (base + x.length)

/-- The `VcdCommand::ValueChange` arm of the `next_cycle` callback in
`src/wavetk/src/simulation.rs`: drop untracked variables, look up the byte
offset (`expect` panics on a missing key), then write.  `Bit` writes one
logic level at `base` (`state[base]` panics when out of bounds); `Vector`
looks up the width (`unwrap`), asserts it equals the literal length, and
writes the levels into `state[base..base + w]` (the slice panics when out of
bounds); `Real` is a no-op. -/
def apply_change (tracked : List String) (var_offset var_width : List (String × Nat))
    (state : List Int) (v : VcdChange) : Except SimError (List Int) :=
  if !tracked.isEmpty && !tracked.contains v.var_id then
    Except.ok state
  else
    match map_get var_offset v.var_id with
    | none => Except.error (SimError.panicMissingKey v.var_id)
    | some base =>
      match v.value with
      | VcdValue.Bit c =>
          if base < state.length then
            Except.ok (state.set base (logic_level c))
          else
            Except.error SimError.panicIndex
      | VcdValue.Vector x =>
          match map_get var_width v.var_id with
          | none => Except.error (SimError.panicMissingWidth v.var_id)
          | some w =>
            if w = x.length then
              if base + w ≤ state.length then
                Except.ok (write_bits state base x)
              else
                Except.error SimError.panicIndex
            else
              Except.error (SimError.panicAssertWidth (some w) x.length)
      | VcdValue.Real _ => Except.ok state

/-- The command loop driven by `next_cycle` through
`VcdParser::process_vcd_commands`: commands are consumed in order; a
`SetCycle c` halts the loop (the callback returns `true`) and the commands
after it stay pending; `Directive` and `VcdEnd` are no-ops; a `ValueChange`
is applied to the state.  The result is the halting timestamp (if one was
reached), the pending commands, and the updated state. -/
def run_commands (tracked : List String) (var_offset var_width : List (String × Nat)) :
    List VcdCommand → List Int → Except SimError (Option Nat × List VcdCommand × List Int)
  | [], state => Except.ok (none, [], state)
  | cmd :: rest, state =>
    match cmd with
    | VcdCommand.SetCycle c => Except.ok (some c, rest, state)
    | VcdCommand.ValueChange v =>
      (match apply_change tracked var_offset var_width state v with
       | Except.ok st => run_commands tracked var_offset var_width rest st
       | Except.error e => Except.error e)
    | VcdCommand.Directive _ => run_commands tracked var_offset var_width rest state
    | VcdCommand.VcdEnd => run_commands tracked var_offset var_width rest state

/-- Embedding of `StateSimulation::next_cycle`
(`src/wavetk/src/simulation.rs`).  The local `cycle` starts at `0` and is
overwritten by the halting `SetCycle` (cast with `as i64`); afterwards the
counters rotate (`previous_cycle ← current_cycle; current_cycle ← cycle`)
and the call returns `previous_cycle` with the state.  When the command
stream runs dry the parser has observed end of input (`refill` returned
`0`), which the abstraction records in `end_of_input`. -/
def StateSimulation.next_cycle (s : StateSimulation) :
    Except SimError (Int × StateSimulation) :=
  match run_commands s.tracked_var s.var_offset s.var_width s.commands s.state with
  | Except.error e => Except.error e
  | Except.ok (halt, rest, st) =>
    let cycle : Int :=
      match halt with
      | some c => u64_to_i64 c
      | none => 0
    let s1 : StateSimulation :=
      { s with commands := rest, state := st,
               end_of_input := s.end_of_input || rest.isEmpty,
               previous_cycle := s.current_cycle, current_cycle := cycle }
    Except.ok (s1.previous_cycle, s1)

/-- Embedding of the error table `encode_error` in
`src/wavetk-bindings/src/lib.rs`. -/
def encode_error (e : VcdError) : Int :=
  match e with
  | VcdError.IoError => 1
  | VcdError.ParseError => 2
  | VcdError.MissingData => 3
  | VcdError.PartialHeader => 4
  | VcdError.Utf8Error => 5
  | VcdError.EndOfInput => 6

/-- Embedding of the C-ABI wrapper `wave_sim_next_cycle` in
`src/wavetk-bindings/src/lib.rs`: when `sim.done()` holds it returns the
encoded `EndOfInput` error without calling `next_cycle`; otherwise it
delegates. -/
def wave_sim_next_cycle (s : StateSimulation) : Except SimError (Int × StateSimulation) :=
  if s.done then Except.error (SimError.vcdError VcdError.EndOfInput)
  else s.next_cycle

/-- Run `next_cycle` a fixed number of times, collecting the returned cycle
values and the final state. -/
def run_trace : Nat → StateSimulation → Except SimError (List Int × StateSimulation)
  | 0, s => Except.ok ([], s)
  | n + 1, s =>
    match s.next_cycle with
    | Except.error e => Except.error e
    | Except.ok (c, s1) =>
      match run_trace n s1 with
      | Except.error e => Except.error e
      | Except.ok (tl, sF) => Except.ok (c :: tl, sF)

/-- Drive the simulation the way the in-tree callers do
(`src/wavetk/examples/state_simulation.rs`): call `next_cycle` while
`done()` is false, collecting the returned cycle values.  The fuel bounds
the number of calls. -/
def drive : Nat → StateSimulation → Except SimError (List Int)
  | 0, _ => Except.ok []
  | n + 1, s =>
    if s.done then Except.ok []
    else
      match s.next_cycle with
      | Except.error e => Except.error e
      | Except.ok (c, s1) =>
        match drive n s1 with
        | Except.error e => Except.error e
        | Except.ok tl => Except.ok (c :: tl)

/-- Whether a command is a `SetCycle` (a timestamp record). -/
def is_set_cycle : VcdCommand → Bool
  | VcdCommand.SetCycle _ => true
  | _ => false

/-- Timestamps of the `SetCycle` commands of a stream, in order. -/
def cycles_of : List VcdCommand → List Nat
  | [] => []
  | VcdCommand.SetCycle c :: rest => c :: cycles_of rest
  | _ :: rest => cycles_of rest

/-- Refill buffer from `src/wavetk/src/utils.rs` (`Buffer<R>`).  The wrapped
reader `R` is modelled as the list of bytes it has yet to deliver (`inner`);
bytes are natural numbers (only values below 256 occur). -/
structure Buffer where
  inner : List Nat
  offset : Nat
  size : Nat
  data : List Nat
deriving DecidableEq, Repr

namespace Buffer

/-- Embedding of `Buffer::with_capacity`: `Vec::with_capacity` only reserves,
so the backing array starts with length zero whatever the capacity hint. -/
def with_capacity (_capacity : Nat) (inner : List Nat) : Buffer :=
  { inner := inner, offset := 0, size := 0, data := [] }

/-- Embedding of `Buffer::capacity` (the length of the backing `Vec`). -/
def capacity (b : Buffer) : Nat :=
  b.data.length

/-- Embedding of `Buffer::available`.  The subtraction is on `usize`; under
the buffer invariant `offset + size ≤ capacity` it never underflows, and
truncated natural subtraction models it. -/
def available (b : Buffer) : Nat :=
  b.capacity - (b.size + b.offset)

/-- Embedding of `Buffer::push`.  When `available() == 0` the source calls
`self.data.push(elt)` and leaves `size` unchanged; otherwise it writes at
`offset + size` and increments `size`. -/
def push (b : Buffer) (elt : Nat) : Buffer :=
  if b.available = 0 then
    { b with data := b.data ++ [elt] }
  else
    { b with data := b.data.set (b.offset + b.size) elt, size := b.size + 1 }

/-- Embedding of `Buffer::consume`. -/
def consume (b : Buffer) (n : Nat) : Buffer :=
  if n ≥ b.size then
    { b with offset := 0, size := 0 }
  else
    { b with offset := b.offset + n, size := b.size - n }

/-- Embedding of `Buffer::data`: the live window
`&self.data[self.offset..self.offset + self.size]`.  (Named `window` here
because `data` is taken by the field.) -/
def window (b : Buffer) : List Nat :=
  (b.data.drop b.offset).take b.size

/-- Embedding of `u8::is_ascii_whitespace`: space, tab, newline, form feed,
carriage return. -/
def is_ascii_whitespace (c : Nat) : Bool :=
  c = 32 || c = 9 || c = 10 || c = 12 || c = 13

/-- Embedding of `Buffer::trim`: count the leading ASCII whitespace of the
window, consume it, and return the count. -/
def trim (b : Buffer) : Buffer × Nat :=
  let n := (b.window.takeWhile is_ascii_whitespace).length
  (b.consume n, n)

/-- Embedding of `Buffer::shift`: `self.data.drain(0..self.offset)` discards
the dead prefix and the offset resets. -/
def shift (b : Buffer) : Buffer :=
  { b with data := b.data.drop b.offset, offset := 0 }

/-- Overwrite `l` from position `start` with the elements of `xs`, as the
slice write `&mut l[start..start + xs.len()]` does. -/
def list_write (l : List Nat) (start : Nat) (xs : List Nat) : List Nat :=
  l.take start ++ xs ++ l.drop (start + xs.length)

/-- Embedding of `Buffer::refill`: grow the backing array when fewer than
`n` free bytes follow the window (`self.data.resize(end + n, 0)`), then read
up to `n` bytes from the source into `data[end..end + n]` and extend the
window by the count actually read.  `Read::read` on the modelled source
delivers `min n (length inner)` bytes. -/
def refill (b : Buffer) (n : Nat) : Buffer × Nat :=
  let endp := b.offset + b.size
  let d := if b.available < n then b.data.take (endp + n) ++
             List.replicate (endp + n - b.data.length) 0 else b.data
  let k := min n b.inner.length
  ({ b with data := list_write d endp (b.inner.take k),
            inner := b.inner.drop k,
            size := b.size + k }, k)

/-- Embedding of `Buffer::len`. -/
def len (b : Buffer) : Nat :=
  b.size

/-- The buffer invariant of claim C10: the live window fits inside the
backing array. -/
def inv (b : Buffer) : Prop :=
  b.offset + b.size ≤ b.data.length

instance (b : Buffer) : Decidable b.inv := by
  unfold Buffer.inv; infer_instance

end Buffer

/-- Result of a nom parser on a character slice: success with the remaining
input, a recoverable failure (`nom::Err::Error`), or `nom::Err::Incomplete`
(the streaming parsers signal that more input is needed). -/
inductive PRes (α : Type) where
  | ok (rest : List Char) (val : α)
  | fail
  | incomplete
deriving DecidableEq, Repr

/-- Sequencing of parsers: failures and incompleteness propagate. -/
def pbind (p : List Char → PRes α) (f : α → List Char → PRes β) :
    List Char → PRes β := fun i =>
  match p i with
  | PRes.ok r v => f v r
  | PRes.fail => PRes.fail
  | PRes.incomplete => PRes.incomplete

/-- Parser that consumes nothing. -/
def ppure (v : α) : List Char → PRes α := fun i => PRes.ok i v

/-- nom `map`. -/
def pmap (p : List Char → PRes α) (f : α → β) : List Char → PRes β :=
  fun i =>
  match p i with
  | PRes.ok r v => PRes.ok r (f v)
  | PRes.fail => PRes.fail
  | PRes.incomplete => PRes.incomplete

/-- nom `map_res`: a `None` from the fallible function is a parse failure. -/
def pmap_res (p : List Char → PRes α) (f : α → Option β) : List Char → PRes β :=
  fun i =>
  match p i with
  | PRes.ok r v =>
    match f v with
    | some w => PRes.ok r w
    | none => PRes.fail
  | PRes.fail => PRes.fail
  | PRes.incomplete => PRes.incomplete

/-- nom `alt` of two branches: the second is tried only on a recoverable
failure of the first; `Incomplete` is returned as is. -/
def alt2 (p q : List Char → PRes α) : List Char → PRes α := fun i =>
  match p i with
  | PRes.fail => q i
  | r => r

/-- nom `opt`: a recoverable failure yields `none` without consuming;
`Incomplete` propagates. -/
def popt (p : List Char → PRes α) : List Char → PRes (Option α) := fun i =>
  match p i with
  | PRes.ok r v => PRes.ok r (some v)
  | PRes.fail => PRes.ok i none
  | PRes.incomplete => PRes.incomplete

/-- nom `preceded`. -/
def pafter (p : List Char → PRes α) (q : List Char → PRes β) :
    List Char → PRes β :=
  pbind p (fun _ => q)

/-- nom `terminated`. -/
def pbefore (p : List Char → PRes α) (q : List Char → PRes β) :
    List Char → PRes α :=
  pbind p (fun v => pmap q (fun _ => v))

/-- nom `pair` / two-element `tuple`. -/
def ppair (p : List Char → PRes α) (q : List Char → PRes β) :
    List Char → PRes (α × β) :=
  pbind p (fun v => pmap q (fun w => (v, w)))

/-- nom `recognize`: on success return the consumed slice. -/
def precognize (p : List Char → PRes α) : List Char → PRes (List Char) :=
  fun i =>
  match p i with
  | PRes.ok r _ => PRes.ok r (i.take (i.length - r.length))
  | PRes.fail => PRes.fail
  | PRes.incomplete => PRes.incomplete

/-- nom streaming `char`. -/
def pchar (c : Char) : List Char → PRes Char := fun i =>
  match i with
  | [] => PRes.incomplete
  | x :: r => if x = c then PRes.ok r c else PRes.fail

/-- nom streaming `one_of`. -/
def pone_of (cs : List Char) : List Char → PRes Char := fun i =>
  match i with
  | [] => PRes.incomplete
  | x :: r => if cs.contains x then PRes.ok r x else PRes.fail

/-- nom streaming `tag`, character by character: a mismatch is a failure, and
input that runs out while still matching is incomplete. -/
def ptag : List Char → List Char → PRes Unit
  | [], i => PRes.ok i ()
  | _ :: _, [] => PRes.incomplete
  | c :: t, x :: r => if x = c then ptag t r else PRes.fail

/-- Characters of nom's `multispace` family: space, tab, carriage return,
line feed. -/
def is_nom_multispace (c : Char) : Bool :=
  c = ' ' || c = '\t' || c = '\r' || c = '\n'

/-- nom streaming `multispace0`: consume leading whitespace; if the whole
input is whitespace the parser cannot know whether more follows and returns
`Incomplete`. -/
def multispace0 : List Char → PRes (List Char) := fun i =>
  let tk := i.takeWhile is_nom_multispace
  let r := i.drop tk.length
  if r.isEmpty then PRes.incomplete else PRes.ok r tk

/-- nom streaming `multispace1`: additionally fails when the first character
is not whitespace. -/
def multispace1 : List Char → PRes (List Char) := fun i =>
  match i with
  | [] => PRes.incomplete
  | c :: _ => if is_nom_multispace c then multispace0 i else PRes.fail

/-- Embedding of `fill_ws1` in `src/wavetk/src/vcd.rs`: the **complete**
`multispace1`, which succeeds even when the whitespace runs to the end of
the input (and fails on empty input). -/
def fill_ws1 : List Char → PRes (List Char) := fun i =>
  match i with
  | [] => PRes.fail
  | c :: _ =>
    if is_nom_multispace c then
      PRes.ok (i.drop (i.takeWhile is_nom_multispace).length)
        (i.takeWhile is_nom_multispace)
    else PRes.fail

/-- Shared shape of nom's streaming `digit1` / `alphanumeric1`: fail when the
first character does not match, incomplete when the match runs to the end of
the input. -/
def split1_streaming (pred : Char → Bool) : List Char → PRes (List Char) :=
  fun i =>
  match i with
  | [] => PRes.incomplete
  | c :: _ =>
    if pred c then
      let tk := i.takeWhile pred
      let r := i.drop tk.length
      if r.isEmpty then PRes.incomplete else PRes.ok r tk
    else PRes.fail

/-- nom streaming `digit1`. -/
def digit1 : List Char → PRes (List Char) :=
  split1_streaming Char.isDigit

/-- nom streaming `alphanumeric1` (ASCII letters and digits). -/
def alphanumeric1 : List Char → PRes (List Char) :=
  split1_streaming (fun c => c.isAlpha || c.isDigit)

/-- nom streaming `take_till`: consume up to (excluding) the first character
satisfying the predicate; incomplete when no such character is in the
input. -/
def take_till (pred : Char → Bool) : List Char → PRes (List Char) := fun i =>
  let tk := i.takeWhile (fun c => !pred c)
  let r := i.drop tk.length
  if r.isEmpty then PRes.incomplete else PRes.ok r tk

/-- nom streaming `take_till1`: as `take_till` but fails when the first
character already satisfies the predicate. -/
def take_till1 (pred : Char → Bool) : List Char → PRes (List Char) := fun i =>
  match i with
  | [] => PRes.incomplete
  | c :: _ => if pred c then PRes.fail else take_till pred i

/-- Rust `char::is_whitespace` (Unicode `White_Space`), used by the grammar
through `|c: char| c.is_whitespace()`.  Inputs reaching the parser are
ASCII-checked, but the full set is embedded. -/
def char_is_whitespace (c : Char) : Bool :=
  c.toNat ∈ [9, 10, 11, 12, 13, 32, 133, 160, 5760, 8192, 8193, 8194, 8195,
    8196, 8197, 8198, 8199, 8200, 8201, 8202, 8232, 8233, 8239, 8287, 12288]

/-- Numeric value of a run of decimal digits. -/
def digits_to_nat (ds : List Char) : Nat :=
  ds.foldl (fun acc c => 10 * acc + (c.toNat - 48)) 0

/-- Rust `u64::from_str` on a digit run: fails when the value does not fit
in 64 bits (`map_res` turns that into a parse failure). -/
def u64_from_digits (ds : List Char) : Option Nat :=
  if digits_to_nat ds < 2 ^ 64 then some (digits_to_nat ds) else none

/-- Embedding of `vcd_end` in `src/wavetk/src/vcd.rs`:
`terminated(tag("$end"), alt((fill_ws1, multispace1)))`. -/
def vcd_end : List Char → PRes Unit :=
  pbefore (ptag ['$', 'e', 'n', 'd']) (alt2 fill_ws1 multispace1)

/-- Loop body of `skip_until_vcd_end`: skip to the next `$`, accept an
optional `$end`, otherwise consume one character and repeat.  Every round
consumes at least one character, so fuel `length + 1` never runs out; a
fuel-out is reported as `Incomplete` (unreachable). -/
def skip_go : Nat → List Char → PRes Unit
  | 0, _ => PRes.incomplete
  | fuel + 1, w =>
    match take_till (fun c => c = '$') w with
    | PRes.ok r _ =>
      (match vcd_end r with
       | PRes.ok r2 _ => PRes.ok r2 ()
       | PRes.incomplete => PRes.incomplete
       | PRes.fail =>
         match r with
         | [] => PRes.incomplete
         | _ :: r3 => skip_go fuel r3)
    | PRes.incomplete => PRes.incomplete
    | PRes.fail => PRes.fail

/-- Embedding of `skip_until_vcd_end` in `src/wavetk/src/vcd.rs`. -/
def skip_until_vcd_end : List Char → PRes Unit := fun i =>
  skip_go (i.length + 1) i

/-- Embedding of `vcd_cycle`:
`map_res(delimited(char('#'), digit1, fill_ws1), u64::from_str)`. -/
def vcd_cycle : List Char → PRes Nat :=
  pmap_res (pafter (pchar '#') (pbefore digit1 fill_ws1)) u64_from_digits

/-- Embedding of `vcd_varid`:
`terminated(take_till1(|c| c.is_whitespace()), fill_ws1)`. -/
def vcd_varid : List Char → PRes (List Char) :=
  pbefore (take_till1 char_is_whitespace) fill_ws1

/-- Embedding of `vcd_bit_change`:
`tuple((one_of("01xXzZwWuU"), preceded(multispace0, vcd_varid)))`. -/
def vcd_bit_change : List Char → PRes (Char × List Char) :=
  ppair (pone_of ['0', '1', 'x', 'X', 'z', 'Z', 'w', 'W', 'u', 'U'])
    (pafter multispace0 vcd_varid)

/-- Embedding of `is_vcd_bit`. -/
def is_vcd_bit (c : Char) : Bool :=
  ['0', '1', 'x', 'X', 'z', 'Z', 'u', 'U', 'w', 'W'].contains c

/-- Embedding of `vcd_bits`:
`terminated(take_till1(|c| !is_vcd_bit(c)), multispace0)`. -/
def vcd_bits : List Char → PRes (List Char) :=
  pbefore (take_till1 (fun c => !is_vcd_bit c)) multispace0

/-- Embedding of `vcd_vec_change`:
`preceded(char('b'), preceded(multispace0, tuple((vcd_bits, vcd_varid))))`. -/
def vcd_vec_change : List Char → PRes (List Char × List Char) :=
  pafter (pchar 'b') (pafter multispace0 (ppair vcd_bits vcd_varid))

/-- nom streaming `recognize_float`: optional sign, then either a digit run
with an optional `.`-fraction or a leading `.` with digits, then an optional
exponent. -/
def recognize_float : List Char → PRes (List Char) :=
  precognize
    (ppair (popt (alt2 (pchar '+') (pchar '-')))
      (ppair
        (alt2
          (pmap (ppair digit1 (popt (ppair (pchar '.') (popt digit1))))
            (fun _ => ()))
          (pmap (ppair (pchar '.') digit1) (fun _ => ())))
        (popt (ppair (alt2 (pchar 'e') (pchar 'E'))
          (ppair (popt (alt2 (pchar '+') (pchar '-'))) digit1)))))

/-- Embedding of `vcd_real_change`:
`preceded(char('r'), preceded(multispace0, tuple((terminated(recognize_float,
multispace0), vcd_varid))))`. -/
def vcd_real_change : List Char → PRes (List Char × List Char) :=
  pafter (pchar 'r')
    (pafter multispace0 (ppair (pbefore recognize_float multispace0) vcd_varid))

/-- Embedding of `vcd_change`: ordered choice of bit, vector and real value
changes. -/
def vcd_change : List Char → PRes VcdChange :=
  alt2
    (pmap vcd_bit_change (fun p =>
      { var_id := String.mk p.2, value := VcdValue.Bit p.1 }))
    (alt2
      (pmap vcd_vec_change (fun p =>
        { var_id := String.mk p.2, value := VcdValue.Vector p.1 }))
      (pmap vcd_real_change (fun p =>
        { var_id := String.mk p.2, value := VcdValue.Real p.1 })))

/-- Embedding of `vcd_directive`: a `$` word; `end` yields `VcdEnd`,
`comment` swallows its body up to `$end`, anything else is a bare
directive. -/
def vcd_directive : List Char → PRes VcdCommand :=
  pbind (pbefore (pafter (pchar '$') alphanumeric1) fill_ws1) (fun cmd =>
    if cmd = ['e', 'n', 'd'] then ppure VcdCommand.VcdEnd
    else if cmd = ['c', 'o', 'm', 'm', 'e', 'n', 't'] then
      pmap skip_until_vcd_end (fun _ => VcdCommand.Directive cmd)
    else ppure (VcdCommand.Directive cmd))

/-- Embedding of `vcd_command`: `alt((map(vcd_change, ValueChange),
map(vcd_cycle, SetCycle), vcd_directive))`. -/
def vcd_command : List Char → PRes VcdCommand :=
  alt2 (pmap vcd_change VcdCommand.ValueChange)
    (alt2 (pmap vcd_cycle VcdCommand.SetCycle) vcd_directive)

/-- Embedding of `VcdStreamParser<R>` in `src/wavetk/src/vcd.rs`: a refill
buffer, the chunk size, and the end-of-input flag. -/
structure VcdStreamParser where
  buff : Buffer
  chunk_size : Nat
  end_of_input : Bool
deriving DecidableEq, Repr

namespace VcdStreamParser

/-- Embedding of `VcdStreamParser::with_chunk_size`: a buffer with capacity
hint `2 * chunk_size` over the source. -/
def with_chunk_size (chunk : Nat) (inner : List Nat) : VcdStreamParser :=
  { buff := Buffer.with_capacity (2 * chunk) inner
    chunk_size := chunk
    end_of_input := false }

/-- Embedding of `VcdStreamParser::done`. -/
def done (sp : VcdStreamParser) : Bool :=
  sp.end_of_input && sp.buff.window.length == 0

/-- Loop body of `VcdStreamParser::trim_refill`: refill a chunk, trim the
leading whitespace, and retry while the whole (non-empty) refill was
whitespace.  Each retry consumes source bytes, so fuel
`length inner + 1` never runs out; a fuel-out returns count 0
(unreachable). -/
def trim_refill_go : Nat → VcdStreamParser → VcdStreamParser × Nat
  | 0, sp => (sp, 0)
  | fuel + 1, sp =>
    let r := sp.buff.refill sp.chunk_size
    let t := r.1.trim
    let sp1 := { sp with buff := t.1 }
    if t.2 = 0 || t.2 < r.2 then (sp1, r.2 - t.2)
    else trim_refill_go fuel sp1

/-- Embedding of `VcdStreamParser::trim_refill`. -/
def trim_refill (sp : VcdStreamParser) : VcdStreamParser × Nat :=
  trim_refill_go (sp.buff.inner.length + 1) sp

/-- Embedding of `VcdStreamParser::refill`: refill (trimming or not), reject
any byte ≥ 128 among the net new bytes (`Utf8Error`), record a zero read as
end of input, and in the untrimmed case push one `b'\n'` so that grammar
rules needing a trailing separator can complete. -/
def refill (sp : VcdStreamParser) (trim : Bool) :
    Except VcdError (VcdStreamParser × Nat) :=
  let r :=
    if trim then trim_refill sp
    else
      let q := sp.buff.refill sp.chunk_size
      ({ sp with buff := q.1 }, q.2)
  let sp1 := r.1
  let n := r.2
  if (sp1.buff.window.reverse.take n).any (fun c => 128 ≤ c) then
    Except.error VcdError.Utf8Error
  else if n = 0 then
    Except.ok
      ({ sp1 with end_of_input := true,
                  buff := if !trim then sp1.buff.push 10 else sp1.buff }, n)
  else
    Except.ok (sp1, n)

/-- Embedding of `VcdStreamParser::run_parser`: offer the live window (as a
string) to `f`; on success consume what `f` used and keep the buffer primed
(trimming refill when the window emptied, shift-and-refill when it is short
and input remains); on `MissingData` refill and retry, giving up when the
refill hit end of input.  The fuel bounds the retries; `none` means the fuel
ran out (the concrete runs below never exhaust it). -/
def run_parser_go (f : List Char → Except VcdError (Nat × α)) :
    Nat → VcdStreamParser → Option (Except VcdError (VcdStreamParser × α))
  | 0, _ => none
  | fuel + 1, sp =>
    match f (sp.buff.window.map Char.ofNat) with
    | Except.ok (n_remaining, v) =>
      let consumed := sp.buff.len - n_remaining
      let sp1 := { sp with buff := sp.buff.consume consumed }
      if sp1.buff.len = 0 then
        match sp1.refill true with
        | Except.error e => some (Except.error e)
        | Except.ok (sp2, _) => some (Except.ok (sp2, v))
      else if !sp1.end_of_input && sp1.buff.len ≤ 256 then
        match { sp1 with buff := sp1.buff.shift }.refill false with
        | Except.error e => some (Except.error e)
        | Except.ok (sp2, _) => some (Except.ok (sp2, v))
      else
        some (Except.ok (sp1, v))
    | Except.error VcdError.MissingData =>
      (match sp.refill false with
       | Except.error e => some (Except.error e)
       | Except.ok (sp1, n_read) =>
         if n_read = 0 && sp1.end_of_input then
           some (Except.error VcdError.MissingData)
         else
           run_parser_go f fuel sp1)
    | Except.error e => some (Except.error e)

end VcdStreamParser

/-- The closure `VcdParser::process_vcd_commands` hands to `run_parser`:
parse one command and report the remaining length, with
`nom::Err::Incomplete` becoming `MissingData` and other parse errors
`ParseError`.  The counting callback of `tests/vcd_parser.rs` always
returns `false`, so its effect (the increment) is accounted at the
call site. -/
def command_step (i : List Char) : Except VcdError (Nat × VcdCommand) :=
  match vcd_command i with
  | PRes.ok r cmd => Except.ok (r.length, cmd)
  | PRes.incomplete => Except.error VcdError.MissingData
  | PRes.fail => Except.error VcdError.ParseError

/-- The `while !should_stop && !self.buffer.done()` loop of
`VcdParser::process_vcd_commands` with the counting callback: one command
per `run_parser` round.  `rfuel` is the retry fuel handed to each
`run_parser` round. -/
def count_commands_go (rfuel : Nat) :
    Nat → VcdStreamParser → Nat → Option (Except VcdError (VcdStreamParser × Nat))
  | 0, _, _ => none
  | fuel + 1, sp, cnt =>
    if sp.done then some (Except.ok (sp, cnt))
    else
      match VcdStreamParser.run_parser_go command_step rfuel sp with
      | none => none
      | some (Except.error e) => some (Except.error e)
      | some (Except.ok (sp1, _)) => count_commands_go rfuel fuel sp1 (cnt + 1)

/-- Embedding of `VcdParser::process_vcd_commands` with the counting
callback of `tests/vcd_parser.rs`: prime an empty window with a trimming
refill (returning at once when it reads nothing), then loop over
commands. -/
def process_count (rfuel fuel : Nat) (sp : VcdStreamParser) :
    Option (Except VcdError (VcdStreamParser × Nat)) :=
  if sp.buff.len = 0 then
    match sp.refill true with
    | Except.error e => some (Except.error e)
    | Except.ok (sp1, n) =>
      if n = 0 then some (Except.ok (sp1, 0))
      else count_commands_go rfuel fuel sp1 0
  else count_commands_go rfuel fuel sp 0

/-- Count the commands of a VCD body read through the streaming machinery
with a given chunk size, as `parse_file` in `tests/vcd_parser.rs` does
(without the header phase). -/
def count_commands (file : List Nat) (chunk rfuel fuel : Nat) :
    Option (Except VcdError Nat) :=
  match process_count rfuel fuel (VcdStreamParser.with_chunk_size chunk file) with
  | none => none
  | some (Except.error e) => some (Except.error e)
  | some (Except.ok (_, cnt)) => some (Except.ok cnt)

/-- Application of the value-change commands of a stream prefix to a state
vector, in order (what `next_cycle` does to the commands before the halting
timestamp; `Directive` and `VcdEnd` are no-ops). -/
def apply_prefix (tracked : List String) (o w : List (String × Nat)) :
    List VcdCommand → List Int → Except SimError (List Int)
  | [], st => Except.ok st
  | VcdCommand.ValueChange v :: rest, st =>
    (match apply_change tracked o w st v with
     | Except.ok st1 => apply_prefix tracked o w rest st1
     | Except.error e => Except.error e)
  | _ :: rest, st => apply_prefix tracked o w rest st

/-- Membership in the closed value set of the logic-level encoding. -/
def byte_ok (x : Int) : Prop :=
  x ∈ ([-5, -4, -3, -2, -1, 0, 1] : List Int)

instance (x : Int) : Decidable (byte_ok x) := by
  unfold byte_ok; infer_instance

/-- Every byte of a state vector lies in the logic-level value set. -/
def state_ok (l : List Int) : Prop :=
  ∀ x ∈ l, byte_ok x

instance (l : List Int) : Decidable (state_ok l) := by
  unfold state_ok; infer_instance

/-- Concrete body used for claim C3: the bytes of the file `#1 \n0!`
(a timestamp record, then a bit change with no trailing separator). -/
def c3_file : List Nat := [35, 49, 32, 10, 48, 33]

/-- Concrete drained simulation for claim C1: end of input observed, no
pending commands, last absorbed timestamp 3. -/
def c1_sim : StateSimulation :=
  { StateSimulation.new [] with end_of_input := true, current_cycle := 3 }

/-- Concrete simulation for claim C2: one allocated two-bit variable `!`
whose next record carries the one-character literal `b1`. -/
def c2_sim : StateSimulation :=
  { StateSimulation.new
      [VcdCommand.ValueChange { var_id := "!", value := VcdValue.Vector ['1'] },
       VcdCommand.SetCycle 1] with
    var_offset := [("!", 0)], var_width := [("!", 2)], state := [0, 0] }

/-- Concrete simulation for claim C4: two timestamps in decreasing order. -/
def c4_sim : StateSimulation :=
  StateSimulation.new [VcdCommand.SetCycle 5, VcdCommand.SetCycle 3]

/-- Concrete simulation for the C4 witness: two increasing timestamps. -/
def c4w_sim : StateSimulation :=
  StateSimulation.new [VcdCommand.SetCycle 1, VcdCommand.SetCycle 2]

/-- Concrete header for claim C5: the id `!` declared twice as a real with
two different widths. -/
def c5_vars : List VariableInfo :=
  [{ id := "!", kind := VariableKind.VcdReal, width := 1 },
   { id := "!", kind := VariableKind.VcdReal, width := 2 }]

/-- Concrete declarations for the C5 witness: wire `!` of width 2, wire `a`
of width 3, and re-declarations of `!` with matching width 2 and clashing
width 3. -/
def c5w_v : VariableInfo := { id := "!", kind := VariableKind.VcdWire, width := 2 }

/-- Second declaration for the C5 witness (see `c5w_v`). -/
def c5w_a : VariableInfo := { id := "a", kind := VariableKind.VcdWire, width := 3 }

/-- Matching-width re-declaration of `!` for the C5 witness. -/
def c5w_w : VariableInfo := { id := "!", kind := VariableKind.VcdWire, width := 2 }

/-- Clashing-width re-declaration of `!` for the C5 witness. -/
def c5w_w3 : VariableInfo := { id := "!", kind := VariableKind.VcdWire, width := 3 }

/-- Concrete simulation for claim C6: one allocated one-bit variable `!`,
a pre-timestamp value change, then timestamps 5 and 9. -/
def c6_sim : StateSimulation :=
  { StateSimulation.new
      [VcdCommand.ValueChange { var_id := "!", value := VcdValue.Bit '1' },
       VcdCommand.SetCycle 5, VcdCommand.SetCycle 9] with
    var_offset := [("!", 0)], var_width := [("!", 1)], state := [0] }

/-- Concrete buffer for the C10 witness: window `[2, 3]` inside a backing
array of four bytes, one unread source byte. -/
def c10_buf : Buffer :=
  { inner := [7], offset := 1, size := 2, data := [1, 2, 3, 4] }

end Wave

namespace Wave

/-- C10: every buffer operation preserves the invariant
`offset + size ≤ length data`, and under it the window slice
`data[offset..offset + size]` is fully in bounds (its length is exactly
`size`), so taking it never panics. -/
theorem C10_buffer_invariant (b : Buffer) (e n : Nat) (h : b.inv) :
    (b.push e).inv ∧ (b.consume n).inv ∧ (b.trim).1.inv ∧ b.shift.inv
    ∧ (b.refill n).1.inv ∧ b.window.length = b.size := by
  have hcons : ∀ m : Nat, (b.consume m).inv := by
    intro m
    unfold Buffer.consume
    unfold Buffer.inv at *
    split
    · simp
    · simp
      omega
  refine ⟨?_, hcons n, hcons _, ?_, ?_, ?_⟩
  · unfold Buffer.push Buffer.available Buffer.capacity
    unfold Buffer.inv at *
    split
    · simp
      omega
    · simp
      omega
  · unfold Buffer.shift
    unfold Buffer.inv at *
    simp
    omega
  · unfold Buffer.refill Buffer.list_write Buffer.available Buffer.capacity
    unfold Buffer.inv at *
    dsimp only
    split
    · simp
      omega
    · simp
      omega
  · unfold Buffer.window
    unfold Buffer.inv at h
    simp
    omega

/-- C10 witness: the invariant theorem at a concrete buffer. -/
theorem C10_witness :
    (c10_buf.push 9).inv ∧ (c10_buf.consume 3).inv ∧ (c10_buf.trim).1.inv
    ∧ c10_buf.shift.inv ∧ (c10_buf.refill 3).1.inv
    ∧ c10_buf.window.length = c10_buf.size :=
  C10_buffer_invariant c10_buf 9 3 (by decide)



/-- C7: the fixed kind table of `impl From<&str> for VariableKind` maps the
token "wand" to `VcdTriand` — not to its own kind `VcdWand` — while "wor"
does map to `VcdWor`; and the token "port", although part of the enumerated
kinds, falls through to the `End` sentinel.  This refutes the claim that
every kind token of the closed enumeration maps to its own enumerated
kind. -/
theorem C7_kind_table_wand :
    VariableKind.from_str "wand" = VariableKind.VcdTriand
    ∧ VariableKind.from_str "wand" ≠ VariableKind.VcdWand
    ∧ VariableKind.from_str "wor" = VariableKind.VcdWor
    ∧ VariableKind.from_str "port" = VariableKind.End
    ∧ VariableKind.from_str "port" ≠ VariableKind.VcdPort := by
  decide

/-- C8: on a buffer whose window touches capacity (here a fresh buffer,
whose backing array is empty), `push` grows the backing array but does not
extend the logical window: `data()` stays empty instead of gaining the
pushed byte, and a second `push` overwrites the first byte, so the window
ends up `[66]` and the byte 65 is lost.  This refutes the claim that
`push(b)` always grows `data()` by one byte ending in `b`. -/
theorem C8_push_loses_byte :
    ((Buffer.with_capacity 0 []).push 65).window = []
    ∧ ((Buffer.with_capacity 0 []).push 65).data = [65]
    ∧ (((Buffer.with_capacity 0 []).push 65).push 66).window = [66] := by
  decide

/-- C3: command counts are not invariant under chunk size.  On the body
`#1 \n0!` (no trailing separator) the machinery emits 2 commands and
succeeds with chunk size 6, but fails with `MissingData` (after emitting
only the first command) with chunk size 2: with the small chunk, end of
input is discovered in the `MissingData` branch of `run_parser`, which
returns the error without offering the newline just pushed by `refill` to
the grammar; with the large chunk, end of input is discovered in the
success branch and the pushed newline lets the final record complete. -/
theorem C3_chunk_size_dependent :
    count_commands c3_file 6 20 20 = some (Except.ok 2)
    ∧ count_commands c3_file 2 20 20 = some (Except.error VcdError.MissingData) := by
  decide

/-- C1 counterexample: a drained simulation (`done()` true) on which
`StateSimulation::next_cycle` returns a normal `Ok` result — the previous
cycle value with the untouched state — rather than the `EndOfInput` error
the claim requires. -/
theorem C1_counterexample :
    c1_sim.done = true
    ∧ c1_sim.next_cycle =
        Except.ok ((3 : Int),
          { c1_sim with previous_cycle := 3, current_cycle := 0 })
    ∧ c1_sim.next_cycle ≠ Except.error (SimError.vcdError VcdError.EndOfInput) := by
  decide

/-- C2 counterexample: a vector record whose literal (`1`, length 1) is
shorter than the allocated width (2) makes `next_cycle` abort on the
`assert_eq!(w, x.len())` assertion instead of left-extending the literal. -/
theorem C2_counterexample :
    c2_sim.next_cycle = Except.error (SimError.panicAssertWidth (some 2) 1) := by
  decide

/-- C4 counterexample: on the accepted stream `#5 #3` the three returned
cycle values are `-1, 5, 3` — not non-decreasing after the initial `-1` —
and after two calls the state has `previous_cycle = 5 > 3 = current_cycle`,
violating the claimed invariant. -/
theorem C4_counterexample :
    (run_trace 3 c4_sim).map Prod.fst = Except.ok [(-1 : Int), 5, 3]
    ∧ ¬ List.Sorted (· ≤ ·) [(-1 : Int), 5, 3]
    ∧ (run_trace 2 c4_sim).map (fun p => (p.2.previous_cycle, p.2.current_cycle))
        = Except.ok ((5 : Int), (3 : Int))
    ∧ ¬ ((5 : Int) ≤ (3 : Int)) := by
  decide

/-- C1 amended: on a drained stream (`done()` true) the library-level
`StateSimulation::next_cycle` still returns a normal result — the previous
cycle value with the untouched state, resetting `current_cycle` to 0 — and
the `EndOfInput` error of the claim is produced one layer up, by the C-ABI
wrapper `wave_sim_next_cycle`, which tests `done()` before delegating. -/
theorem C1_amended (s : StateSimulation) (h : s.done = true) :
    wave_sim_next_cycle s = Except.error (SimError.vcdError VcdError.EndOfInput)
    ∧ s.next_cycle =
        Except.ok (s.current_cycle,
          { s with commands := [], end_of_input := true,
                   previous_cycle := s.current_cycle, current_cycle := 0 }) := by
  have h2 := h
  unfold StateSimulation.done at h2
  rw [Bool.and_eq_true] at h2
  obtain ⟨he, hc⟩ := h2
  have hcmds : s.commands = [] := by
    cases hcl : s.commands with
    | nil => rfl
    | cons a l => rw [hcl] at hc; simp at hc
  constructor
  · unfold wave_sim_next_cycle
    rw [h]
    simp
  · unfold StateSimulation.next_cycle
    rw [hcmds]
    simp [run_commands, he]

/-- C1 witness: the amended statement at the concrete drained simulation. -/
theorem C1_witness :
    wave_sim_next_cycle c1_sim = Except.error (SimError.vcdError VcdError.EndOfInput)
    ∧ c1_sim.next_cycle =
        Except.ok (c1_sim.current_cycle,
          { c1_sim with commands := [], end_of_input := true,
                        previous_cycle := c1_sim.current_cycle, current_cycle := 0 }) :=
  C1_amended c1_sim (by decide)

/-- C2 amended: a vector value-change whose literal is shorter (or longer)
than the allocated width is not left-extended — the width-equality assertion
fails and the simulation aborts; only a literal of exactly the allocated
width is applied, writing one logic level per character, most significant
first. -/
theorem C2_amended (off wid : List (String × Nat)) (st : List Int)
    (id : String) (x : List Char) (base w : Nat)
    (hoff : map_get off id = some base) (hwid : map_get wid id = some w) :
    (x.length ≠ w →
      apply_change [] off wid st { var_id := id, value := VcdValue.Vector x }
        = Except.error (SimError.panicAssertWidth (some w) x.length))
    ∧ (x.length = w → base + w ≤ st.length →
      apply_change [] off wid st { var_id := id, value := VcdValue.Vector x }
        = Except.ok (write_bits st base x)) := by
  constructor
  · intro hne
    unfold apply_change
    rw [hoff, hwid]
    exact if_neg (fun hh : w = x.length => hne hh.symm)
  · intro heq hle
    unfold apply_change
    rw [hoff, hwid]
    exact (if_pos heq.symm).trans (if_pos hle)

/-- C2 witness: the amended statement at a width-2 variable, once with the
short literal `1` (abort) and once with the full-width literal `10`
(applied). -/
theorem C2_witness :
    apply_change [] [("!", 0)] [("!", 2)] [0, 0]
        { var_id := "!", value := VcdValue.Vector ['1'] }
      = Except.error (SimError.panicAssertWidth (some 2) 1)
    ∧ apply_change [] [("!", 0)] [("!", 2)] [0, 0]
        { var_id := "!", value := VcdValue.Vector ['1', '0'] }
      = Except.ok [1, 0] := by
  constructor
  · exact (C2_amended [("!", 0)] [("!", 2)] [0, 0] "!" ['1'] 0 2
      (by decide) (by decide)).1 (by decide)
  · have h := (C2_amended [("!", 0)] [("!", 2)] [0, 0] "!" ['1', '0'] 0 2
      (by decide) (by decide)).2 (by decide) (by decide)
    rw [h]
    decide

/-- C5 counterexample: a header in which the id `!` appears in two
real-valued declarations of different widths.  `allocate_state` neither
aborts nor allocates the id once: both declarations are skipped (the
duplicate check runs only for ids that were actually allocated), the maps
stay empty and the call succeeds. -/
theorem C5_counterexample :
    alloc_core [] c5_vars = Except.ok ([], [], 0)
    ∧ map_get [] "!" = none := by
  decide

end Wave

namespace Wave

/-- Every result of `logic_level` lies in the closed value set. -/
theorem logic_level_byte_ok (c : Char) : byte_ok (logic_level c) := by
  unfold logic_level
  split
  all_goals decide

/-- Characters whose low byte is none of the recognised codes map to -5. -/
theorem logic_level_default (c : Char)
    (h : c.toNat % 256 ∉ ([48, 49, 85, 117, 87, 119, 90, 122, 88, 120] : List Nat)) :
    logic_level c = -5 := by
  unfold logic_level
  split
  all_goals first
  | rfl
  | (rename_i heq
     exact absurd (by rw [heq]; decide) h)

/-- Applying one value change preserves the range invariant of the state
vector: every written byte is a `logic_level`. -/
theorem apply_change_state_ok (tr : List String) (o w : List (String × Nat))
    (st st1 : List Int) (v : VcdChange) (hok : state_ok st)
    (h : apply_change tr o w st v = Except.ok st1) : state_ok st1 := by
  unfold apply_change at h
  split at h
  · cases h
    exact hok
  · split at h
    · exact Except.noConfusion h
    · rename_i base hbase
      split at h
      · split at h
        · cases h
          intro x hx
          rcases List.mem_or_eq_of_mem_set hx with hmem | hval
          · exact hok x hmem
          · rw [hval]
            exact logic_level_byte_ok _
        · exact Except.noConfusion h
      · split at h
        · exact Except.noConfusion h
        · split at h
          · split at h
            · cases h
              intro x hx
              unfold write_bits at hx
              rcases List.mem_append.mp hx with hx1 | hx2
              · rcases List.mem_append.mp hx1 with hxa | hxb
                · exact hok x (List.mem_of_mem_take hxa)
                · rcases List.mem_map.mp hxb with ⟨c, _, hc⟩
                  rw [← hc]
                  exact logic_level_byte_ok c
              · exact hok x (List.mem_of_mem_drop hx2)
            · exact Except.noConfusion h
          · exact Except.noConfusion h
      · cases h
        exact hok

/-- The command loop preserves the range invariant of the state vector. -/
theorem run_commands_state_ok (tr : List String) (o w : List (String × Nat))
    (cmds : List VcdCommand) :
    ∀ (st : List Int) (r : Option Nat × List VcdCommand × List Int),
      state_ok st →
      run_commands tr o w cmds st = Except.ok r →
      state_ok r.2.2 := by
  induction cmds with
  | nil =>
    intro st r hok h
    unfold run_commands at h
    cases h
    exact hok
  | cons cmd tl ih =>
    intro st r hok h
    cases cmd with
    | Directive name =>
      unfold run_commands at h
      exact ih st r hok h
    | VcdEnd =>
      unfold run_commands at h
      exact ih st r hok h
    | SetCycle c =>
      unfold run_commands at h
      cases h
      exact hok
    | ValueChange v =>
      unfold run_commands at h
      cases hap : apply_change tr o w st v with
      | ok st2 =>
        simp only [hap] at h
        exact ih st2 r (apply_change_state_ok tr o w st st2 v hok hap) h
      | error e =>
        simp only [hap] at h
        exact Except.noConfusion h

/-- `next_cycle` preserves the range invariant of the state vector. -/
theorem next_cycle_state_ok (s : StateSimulation) (c : Int) (s1 : StateSimulation)
    (hok : state_ok s.state) (h : s.next_cycle = Except.ok (c, s1)) :
    state_ok s1.state := by
  unfold StateSimulation.next_cycle at h
  cases hrc : run_commands s.tracked_var s.var_offset s.var_width s.commands s.state with
  | error e =>
    rw [hrc] at h
    exact Except.noConfusion h
  | ok r =>
    obtain ⟨halt, rest, st⟩ := r
    rw [hrc] at h
    cases h
    exact run_commands_state_ok s.tracked_var s.var_offset s.var_width s.commands
      s.state (halt, rest, st) hok hrc

/-- `allocate_state` preserves the range invariant: kept bytes were already
in range and new bytes are the zero fill of `Vec::resize`. -/
theorem allocate_state_state_ok (s s1 : StateSimulation)
    (hok : state_ok s.state) (h : s.allocate_state = Except.ok s1) :
    state_ok s1.state := by
  unfold StateSimulation.allocate_state at h
  cases hh : s.header with
  | none =>
    rw [hh] at h
    exact Except.noConfusion h
  | some vars =>
    rw [hh] at h
    cases hac : alloc_core s.tracked_var vars with
    | error e =>
      simp only [hac] at h
      exact Except.noConfusion h
    | ok r =>
      simp only [hac] at h
      cases h
      intro x hx
      unfold list_resize at hx
      split at hx
      · exact hok x (List.mem_of_mem_take hx)
      · rcases List.mem_append.mp hx with h1 | h2
        · exact hok x h1
        · rw [List.eq_of_mem_replicate h2]
          decide

/-- C9: the state vector only ever holds bytes of the logic-level value set
— the fresh vector is empty, `allocate_state` zero-fills, and every write of
`next_cycle` stores a `logic_level`, whose range is the claimed set with the
claimed encoding (`0, 1, U/u, W/w, Z/z, X/x`, anything else -5). -/
theorem C9_state_bytes :
    (∀ c, byte_ok (logic_level c))
    ∧ (logic_level '0' = 0 ∧ logic_level '1' = 1
       ∧ logic_level 'U' = -1 ∧ logic_level 'u' = -1
       ∧ logic_level 'W' = -2 ∧ logic_level 'w' = -2
       ∧ logic_level 'Z' = -3 ∧ logic_level 'z' = -3
       ∧ logic_level 'X' = -4 ∧ logic_level 'x' = -4)
    ∧ (∀ c : Char,
        c.toNat % 256 ∉ ([48, 49, 85, 117, 87, 119, 90, 122, 88, 120] : List Nat) →
        logic_level c = -5)
    ∧ (∀ cmds, state_ok (StateSimulation.new cmds).state)
    ∧ (∀ s s1 : StateSimulation, state_ok s.state →
        s.allocate_state = Except.ok s1 → state_ok s1.state)
    ∧ (∀ (s : StateSimulation) (c : Int) (s1 : StateSimulation), state_ok s.state →
        s.next_cycle = Except.ok (c, s1) → state_ok s1.state) :=
  by
  refine ⟨logic_level_byte_ok, by decide, logic_level_default, ?_,
    allocate_state_state_ok, next_cycle_state_ok⟩
  intro cmds x hx
  cases hx

/-- C9 witness: the preservation part of the theorem applied to the concrete
simulation `c6_sim`, whose first `next_cycle` writes logic level 1. -/
theorem C9_witness : state_ok [(1 : Int)] :=
  C9_state_bytes.2.2.2.2.2 c6_sim (-1)
    { c6_sim with commands := [VcdCommand.SetCycle 9], state := [1],
                  current_cycle := 5 }
    (by decide) (by decide)

end Wave

namespace Wave

/-- The command loop halts at the first `SetCycle` (leaving what follows it
pending); when the stream holds no timestamp it consumes everything. -/
theorem run_commands_cycles (tr : List String) (o w : List (String × Nat))
    (cmds : List VcdCommand) :
    ∀ (st : List Int) (r : Option Nat × List VcdCommand × List Int),
      run_commands tr o w cmds st = Except.ok r →
      (r.1 = none ∧ r.2.1 = [] ∧ cycles_of cmds = []) ∨
      (∃ t, r.1 = some t ∧ cycles_of cmds = t :: cycles_of r.2.1) := by
  induction cmds with
  | nil =>
    intro st r h
    unfold run_commands at h
    cases h
    exact Or.inl ⟨rfl, rfl, rfl⟩
  | cons cmd tl ih =>
    intro st r h
    cases cmd with
    | Directive name =>
      unfold run_commands at h
      exact ih st r h
    | VcdEnd =>
      unfold run_commands at h
      exact ih st r h
    | SetCycle c =>
      unfold run_commands at h
      cases h
      exact Or.inr ⟨c, rfl, rfl⟩
    | ValueChange v =>
      unfold run_commands at h
      cases hap : apply_change tr o w st v with
      | ok st2 =>
        simp only [hap] at h
        exact ih st2 r h
      | error e =>
        simp only [hap] at h
        exact Except.noConfusion h

/-- Shape of a successful `next_cycle`: the returned cycle is the entry
value of `current_cycle` (which also becomes `previous_cycle`); when the
stream held no timestamp the stream is fully consumed, `current_cycle`
resets to 0 and the simulation is done; otherwise `current_cycle` becomes
the first timestamp, cast with `as i64`. -/
theorem next_cycle_spec (s : StateSimulation) (c : Int) (s1 : StateSimulation)
    (h : s.next_cycle = Except.ok (c, s1)) :
    c = s.current_cycle ∧ s1.previous_cycle = s.current_cycle ∧
    ((cycles_of s.commands = [] ∧ s1.current_cycle = 0 ∧ s1.commands = []
        ∧ s1.done = true) ∨
     (∃ t, cycles_of s.commands = t :: cycles_of s1.commands
        ∧ s1.current_cycle = u64_to_i64 t)) := by
  unfold StateSimulation.next_cycle at h
  cases hrc : run_commands s.tracked_var s.var_offset s.var_width s.commands s.state with
  | error e =>
    rw [hrc] at h
    exact Except.noConfusion h
  | ok r =>
    obtain ⟨halt, rest, st⟩ := r
    rw [hrc] at h
    cases h
    rcases run_commands_cycles s.tracked_var s.var_offset s.var_width s.commands
        s.state (halt, rest, st) hrc with ⟨h1, h2, h3⟩ | ⟨t, h1, h2⟩
    · dsimp only at h1 h2
      subst h1
      subst h2
      refine ⟨rfl, rfl, Or.inl ⟨h3, rfl, rfl, ?_⟩⟩
      simp [StateSimulation.done]
    · dsimp only at h1 h2
      subst h1
      exact ⟨rfl, rfl, Or.inr ⟨t, h2, rfl⟩⟩

/-- Driving a finished simulation returns no cycles. -/
theorem drive_done (n : Nat) (s : StateSimulation) (h : s.done = true) :
    drive n s = Except.ok [] := by
  cases n with
  | zero => rfl
  | succ m =>
    unfold drive
    simp [h]

/-- When the cast timestamps of the pending stream are non-decreasing and
bound `current_cycle` below, driving the simulation returns a non-decreasing
list of cycle values, all at least the entry `current_cycle`. -/
theorem drive_sorted (fuel : Nat) :
    ∀ (s : StateSimulation) (l : List Int),
      List.Sorted (· ≤ ·) ((cycles_of s.commands).map u64_to_i64) →
      (∀ t ∈ cycles_of s.commands, s.current_cycle ≤ u64_to_i64 t) →
      drive fuel s = Except.ok l →
      List.Sorted (· ≤ ·) l ∧ ∀ x ∈ l, s.current_cycle ≤ x := by
  induction fuel with
  | zero =>
    intro s l _ _ h
    cases h
    exact ⟨List.sorted_nil, fun x hx => nomatch hx⟩
  | succ n ih =>
    intro s l hsort hlow h
    unfold drive at h
    by_cases hd : s.done = true
    · rw [if_pos hd] at h
      cases h
      exact ⟨List.sorted_nil, fun x hx => nomatch hx⟩
    · rw [if_neg hd] at h
      cases hnc : s.next_cycle with
      | error e =>
        rw [hnc] at h
        exact Except.noConfusion h
      | ok p =>
        obtain ⟨c, s1⟩ := p
        rw [hnc] at h
        cases hdr : drive n s1 with
        | error e =>
          simp only [hdr] at h
          exact Except.noConfusion h
        | ok tl =>
          simp only [hdr] at h
          cases h
          obtain ⟨hc, hprev, hcase⟩ := next_cycle_spec s c s1 hnc
          subst hc
          rcases hcase with ⟨hcyc, hcur, hcmd, hdone⟩ | ⟨t, hcyc, hcur⟩
          · rw [drive_done n s1 hdone] at hdr
            cases hdr
            refine ⟨List.sorted_singleton _, ?_⟩
            intro x hx
            rw [List.mem_singleton] at hx
            subst hx
            exact le_refl _
          · have hmemt : t ∈ cycles_of s.commands := by
              rw [hcyc]
              exact List.mem_cons_self t _
            rw [hcyc] at hsort
            rw [List.map_cons, List.sorted_cons] at hsort
            obtain ⟨hhead, htail⟩ := hsort
            have hlow1 : ∀ u ∈ cycles_of s1.commands, s1.current_cycle ≤ u64_to_i64 u := by
              intro u hu
              rw [hcur]
              exact hhead (u64_to_i64 u) (List.mem_map_of_mem u64_to_i64 hu)
            obtain ⟨hstl, hltl⟩ := ih s1 tl htail hlow1 hdr
            have hcs1 : s.current_cycle ≤ s1.current_cycle := by
              rw [hcur]
              exact hlow t hmemt
            refine ⟨?_, ?_⟩
            · rw [List.sorted_cons]
              refine ⟨?_, hstl⟩
              intro b hb
              exact le_trans hcs1 (hltl b hb)
            · intro x hx
              rcases List.mem_cons.mp hx with hx1 | hx2
              · subst hx1
                exact le_refl _
              · exact le_trans hcs1 (hltl x hx2)

/-- C4 amended: the returned cycle values are non-decreasing provided the
cast timestamps of the input stream are non-decreasing and bound the entry
`current_cycle` below (the code never checks this, and a stream with
decreasing timestamps — see the counterexample — is accepted and yields a
decreasing sequence); and `previous_cycle ≤ current_cycle` holds after every
call that absorbed a timestamp (the final call, which finds no timestamp,
resets `current_cycle` to 0 and may break the inequality). -/
theorem C4_amended (fuel : Nat) (s : StateSimulation) (l : List Int)
    (hsort : List.Sorted (· ≤ ·) ((cycles_of s.commands).map u64_to_i64))
    (hlow : ∀ t ∈ cycles_of s.commands, s.current_cycle ≤ u64_to_i64 t)
    (hrun : drive fuel s = Except.ok l) :
    List.Sorted (· ≤ ·) l
    ∧ (∀ (c : Int) (s1 : StateSimulation),
        cycles_of s.commands ≠ [] → s.next_cycle = Except.ok (c, s1) →
        s1.previous_cycle ≤ s1.current_cycle) := by
  refine ⟨(drive_sorted fuel s l hsort hlow hrun).1, ?_⟩
  intro c s1 hne hnc
  obtain ⟨hc, hprev, hcase⟩ := next_cycle_spec s c s1 hnc
  rcases hcase with ⟨hcyc, _, _, _⟩ | ⟨t, hcyc, hcur⟩
  · exact absurd hcyc hne
  · rw [hprev, hcur]
    exact hlow t (by rw [hcyc]; exact List.mem_cons_self t _)

/-- C4 witness: the amended statement on the stream `#1 #2`, whose drive
returns `[-1, 1]`. -/
theorem C4_witness :
    List.Sorted (· ≤ ·) [(-1 : Int), 1]
    ∧ (∀ (c : Int) (s1 : StateSimulation),
        cycles_of c4w_sim.commands ≠ [] → c4w_sim.next_cycle = Except.ok (c, s1) →
        s1.previous_cycle ≤ s1.current_cycle) :=
  C4_amended 5 c4w_sim [(-1 : Int), 1] (by decide) (by decide) (by decide)

end Wave

namespace Wave

/-- Running the command loop on a stream that opens with timestamp-free
commands applies exactly those commands to the state and halts at the
following `SetCycle`. -/
theorem run_commands_of_prefix (tr : List String) (o w : List (String × Nat))
    (pre : List VcdCommand) :
    ∀ (st st1 : List Int) (t : Nat) (rest : List VcdCommand),
      (∀ c ∈ pre, is_set_cycle c = false) →
      apply_prefix tr o w pre st = Except.ok st1 →
      run_commands tr o w (pre ++ VcdCommand.SetCycle t :: rest) st
        = Except.ok (some t, rest, st1) := by
  induction pre with
  | nil =>
    intro st st1 t rest _ happ
    unfold apply_prefix at happ
    cases happ
    rfl
  | cons cmd tl ih =>
    intro st st1 t rest hns happ
    have hns1 : ∀ c ∈ tl, is_set_cycle c = false :=
      fun c hc => hns c (List.mem_cons_of_mem _ hc)
    cases cmd with
    | SetCycle k =>
      have := hns (VcdCommand.SetCycle k) (List.mem_cons_self _ _)
      simp [is_set_cycle] at this
    | Directive name =>
      unfold apply_prefix at happ
      exact ih st st1 t rest hns1 happ
    | VcdEnd =>
      unfold apply_prefix at happ
      exact ih st st1 t rest hns1 happ
    | ValueChange v =>
      unfold apply_prefix at happ
      cases hap : apply_change tr o w st v with
      | ok st2 =>
        simp only [hap] at happ
        simp only [List.cons_append, run_commands, hap]
        exact ih st2 st1 t rest hns1 happ
      | error e =>
        simp only [hap] at happ
        exact Except.noConfusion happ

/-- C6: both counters start at `-1` (`new`), and `next_cycle` returns the
entry value of `previous_cycle`/`current_cycle` — the cycle of the updates
just absorbed, not the halting timestamp: on a stream opening with
timestamp-free value changes followed by the first timestamp `t`, the first
call returns `-1` with those changes applied to the state, and the second
call (whatever it absorbs) returns `t` (cast with `as i64`). -/
theorem C6_initial_cycle (cmds pre rest : List VcdCommand) (t : Nat)
    (s : StateSimulation) (st1 : List Int)
    (hprev : s.previous_cycle = -1) (hcur : s.current_cycle = -1)
    (hcmds : s.commands = pre ++ VcdCommand.SetCycle t :: rest)
    (hpre : ∀ c ∈ pre, is_set_cycle c = false)
    (happ : apply_prefix s.tracked_var s.var_offset s.var_width pre s.state
      = Except.ok st1) :
    (StateSimulation.new cmds).previous_cycle = -1
    ∧ (StateSimulation.new cmds).current_cycle = -1
    ∧ ∃ s1, s.next_cycle = Except.ok (-1, s1)
        ∧ s1.state = st1 ∧ s1.commands = rest ∧ s1.current_cycle = u64_to_i64 t
        ∧ ∀ (c2 : Int) (s2 : StateSimulation),
            s1.next_cycle = Except.ok (c2, s2) → c2 = u64_to_i64 t := by
  have hrun := run_commands_of_prefix s.tracked_var s.var_offset s.var_width pre
    s.state st1 t rest hpre happ
  refine ⟨rfl, rfl,
    ⟨{ s with commands := rest, state := st1,
              end_of_input := s.end_of_input || rest.isEmpty,
              previous_cycle := s.current_cycle,
              current_cycle := u64_to_i64 t }, ?_, rfl, rfl, rfl, ?_⟩⟩
  · unfold StateSimulation.next_cycle
    rw [hcmds, hrun, hcur]
  · intro c2 s2 h2
    exact (next_cycle_spec _ c2 s2 h2).1

/-- C6 witness: the theorem at the concrete simulation `c6_sim` (one
pre-timestamp bit change, then timestamps 5 and 9). -/
theorem C6_witness :
    (StateSimulation.new []).previous_cycle = -1
    ∧ (StateSimulation.new []).current_cycle = -1
    ∧ ∃ s1, c6_sim.next_cycle = Except.ok (-1, s1)
        ∧ s1.state = [1] ∧ s1.commands = [VcdCommand.SetCycle 9]
        ∧ s1.current_cycle = u64_to_i64 5
        ∧ ∀ (c2 : Int) (s2 : StateSimulation),
            s1.next_cycle = Except.ok (c2, s2) → c2 = u64_to_i64 5 :=
  C6_initial_cycle []
    [VcdCommand.ValueChange { var_id := "!", value := VcdValue.Bit '1' }]
    [VcdCommand.SetCycle 9] 5 c6_sim [1]
    (by decide) (by decide) (by decide) (by decide) (by decide)

end Wave

namespace Wave

/-- Appending a binding for a different key does not change a lookup. -/
theorem map_get_append_ne (m : List (String × Nat)) (k i : String) (x : Nat)
    (h : k ≠ i) : map_get (m ++ [(k, x)]) i = map_get m i := by
  induction m with
  | nil => simp [map_get, h]
  | cons p rest ih =>
    simp only [List.cons_append, map_get]
    split
    · rfl
    · exact ih

/-- Appending a binding for an absent key makes the lookup find it. -/
theorem map_get_append_hit (m : List (String × Nat)) (i : String) (x : Nat)
    (h : map_get m i = none) : map_get (m ++ [(i, x)]) i = some x := by
  induction m with
  | nil => simp [map_get]
  | cons p rest ih =>
    simp only [map_get] at h
    simp only [List.cons_append, map_get]
    split at h
    · exact Option.noConfusion h
    · rename_i hne
      rw [if_neg hne]
      exact ih h

/-- The allocation loop splits over list concatenation. -/
theorem alloc_go_append (tr : List String) (l1 l2 : List VariableInfo) :
    ∀ acc, alloc_go tr (l1 ++ l2) acc =
      match alloc_go tr l1 acc with
      | Except.ok a => alloc_go tr l2 a
      | Except.error e => Except.error e := by
  induction l1 with
  | nil => intro acc; rfl
  | cons u rest ih =>
    intro acc
    cases hstep : alloc_step tr acc u with
    | ok acc1 =>
      simp only [List.cons_append, alloc_go, hstep]
      exact ih acc1
    | error e =>
      simp only [List.cons_append, alloc_go, hstep]

/-- One allocation step for a variable with a different id leaves the
lookups for `i` unchanged. -/
theorem alloc_step_preserve (tr : List String) (mo mw : List (String × Nat))
    (off : Nat) (u : VariableInfo) (i : String) (hne : u.id ≠ i)
    (acc1 : List (String × Nat) × List (String × Nat) × Nat)
    (h : alloc_step tr (mo, mw, off) u = Except.ok acc1) :
    map_get acc1.1 i = map_get mo i ∧ map_get acc1.2.1 i = map_get mw i := by
  unfold alloc_step at h
  split at h
  · split at h
    · cases h
      exact ⟨rfl, rfl⟩
    · exact Except.noConfusion h
  · split at h
    · cases h
      exact ⟨rfl, rfl⟩
    · split at h
      · cases h
        exact ⟨rfl, rfl⟩
      · cases h
        exact ⟨map_get_append_ne mo u.id i off hne,
               map_get_append_ne mw u.id i u.width hne⟩

/-- The allocation loop over variables with different ids leaves the lookups
for `i` unchanged. -/
theorem alloc_go_preserve (tr : List String) (i : String) :
    ∀ (l : List VariableInfo)
      (acc acc1 : List (String × Nat) × List (String × Nat) × Nat),
      (∀ u ∈ l, u.id ≠ i) →
      alloc_go tr l acc = Except.ok acc1 →
      map_get acc1.1 i = map_get acc.1 i ∧ map_get acc1.2.1 i = map_get acc.2.1 i := by
  intro l
  induction l with
  | nil =>
    intro acc acc1 _ h
    cases h
    exact ⟨rfl, rfl⟩
  | cons u rest ih =>
    intro acc acc1 hl h
    unfold alloc_go at h
    cases hstep : alloc_step tr acc u with
    | ok acc2 =>
      simp only [hstep] at h
      obtain ⟨h1, h2⟩ := ih acc2 acc1 (fun c hc => hl c (List.mem_cons_of_mem _ hc)) h
      obtain ⟨g1, g2⟩ := alloc_step_preserve tr acc.1 acc.2.1 acc.2.2 u i
        (hl u (List.mem_cons_self _ _)) acc2 hstep
      exact ⟨h1.trans g1, h2.trans g2⟩
    | error e =>
      simp only [hstep] at h
      exact Except.noConfusion h

/-- The allocation step for a fresh, non-real, tracked (or unfiltered)
variable inserts it and advances the offset by its width. -/
theorem alloc_step_insert (tr : List String) (mo mw : List (String × Nat))
    (off : Nat) (v : VariableInfo)
    (hnone : map_get mo v.id = none)
    (hreal : v.kind ≠ VariableKind.VcdReal)
    (htr : tr = [] ∨ tr.contains v.id = true) :
    alloc_step tr (mo, mw, off) v
      = Except.ok (mo ++ [(v.id, off)], mw ++ [(v.id, v.width)], off + v.width) := by
  have hcond : (!tr.isEmpty && !tr.contains v.id) = false := by
    rcases htr with h | h
    · subst h
      rfl
    · rw [h]
      simp
  unfold alloc_step
  rw [hnone]
  rw [if_neg (by simp)]
  rw [if_neg hreal]
  rw [if_neg (fun hx => absurd (hcond.symm.trans hx) Bool.false_ne_true)]

/-- C5 amended: the claimed once-only allocation and width assertion hold
for an id whose first declaration is actually allocated — not real-valued
and not excluded by the tracking filter (real-valued duplicate declarations
are skipped before the duplicate check, see the counterexample).  For such
an id: a later same-width declaration changes nothing (the allocation
equals the one with that declaration removed), the maps bind the id with
the first declaration's width, and a later declaration with a different
width aborts on the width assertion. -/
theorem C5_amended (pre mid post : List VariableInfo) (v w : VariableInfo)
    (tracked : List String)
    (hid : w.id = v.id)
    (hpre : ∀ u ∈ pre, u.id ≠ v.id) (hmid : ∀ u ∈ mid, u.id ≠ v.id)
    (hreal : v.kind ≠ VariableKind.VcdReal)
    (htr : tracked = [] ∨ tracked.contains v.id = true) :
    (w.width = v.width →
      alloc_core tracked (pre ++ v :: (mid ++ w :: post))
        = alloc_core tracked (pre ++ v :: (mid ++ post)))
    ∧ (∀ acc, alloc_go tracked (pre ++ v :: mid) ([], [], 0) = Except.ok acc →
        (map_get acc.1 v.id).isSome = true
        ∧ map_get acc.2.1 v.id = some v.width
        ∧ (w.width ≠ v.width →
            alloc_core tracked (pre ++ v :: (mid ++ w :: post))
              = Except.error (SimError.panicAssertWidth (some v.width) w.width))) := by
  have hassoc : pre ++ v :: (mid ++ w :: post) = ((pre ++ v :: mid) ++ (w :: post)) := by
    simp
  have hassoc2 : pre ++ v :: (mid ++ post) = ((pre ++ v :: mid) ++ post) := by
    simp
  have key : ∀ acc, alloc_go tracked (pre ++ v :: mid) ([], [], 0) = Except.ok acc →
      (map_get acc.1 v.id).isSome = true ∧ map_get acc.2.1 v.id = some v.width := by
    intro acc hacc
    rw [alloc_go_append] at hacc
    cases hp : alloc_go tracked pre ([], [], 0) with
    | error e =>
      simp only [hp] at hacc
      exact Except.noConfusion hacc
    | ok acc0 =>
      obtain ⟨mo0, mw0, off0⟩ := acc0
      simp only [hp] at hacc
      obtain ⟨p1, p2⟩ := alloc_go_preserve tracked v.id pre ([], [], 0)
        (mo0, mw0, off0) hpre hp
      have hnone0 : map_get mo0 v.id = none := p1
      have hnonew : map_get mw0 v.id = none := p2
      unfold alloc_go at hacc
      rw [alloc_step_insert tracked mo0 mw0 off0 v hnone0 hreal htr] at hacc
      obtain ⟨q1, q2⟩ := alloc_go_preserve tracked v.id mid
        (mo0 ++ [(v.id, off0)], mw0 ++ [(v.id, v.width)], off0 + v.width) acc hmid hacc
      constructor
      · rw [q1, map_get_append_hit mo0 v.id off0 hnone0]
        rfl
      · rw [q2, map_get_append_hit mw0 v.id v.width hnonew]
  constructor
  · intro hww
    unfold alloc_core
    rw [hassoc, hassoc2, alloc_go_append tracked (pre ++ v :: mid) (w :: post),
      alloc_go_append tracked (pre ++ v :: mid) post]
    cases hf : alloc_go tracked (pre ++ v :: mid) ([], [], 0) with
    | error e =>
      rfl
    | ok acc =>
      obtain ⟨k1, k2⟩ := key acc hf
      have hsw : alloc_step tracked acc w = Except.ok acc := by
        unfold alloc_step
        rw [hid, if_pos k1, if_pos (by rw [k2, hww])]
      calc alloc_go tracked (w :: post) acc
          = (match alloc_step tracked acc w with
             | Except.ok acc1 => alloc_go tracked post acc1
             | Except.error e => Except.error e) := rfl
        _ = alloc_go tracked post acc := by rw [hsw]
  · intro acc hacc
    obtain ⟨k1, k2⟩ := key acc hacc
    refine ⟨k1, k2, ?_⟩
    intro hww
    unfold alloc_core
    rw [hassoc, alloc_go_append tracked (pre ++ v :: mid) (w :: post), hacc]
    have hsw : alloc_step tracked acc w
        = Except.error (SimError.panicAssertWidth (some v.width) w.width) := by
      unfold alloc_step
      rw [hid, if_pos k1, k2, if_neg (fun hx => hww (Option.some.inj hx).symm)]
    calc alloc_go tracked (w :: post) acc
        = (match alloc_step tracked acc w with
           | Except.ok acc1 => alloc_go tracked post acc1
           | Except.error e => Except.error e) := rfl
      _ = Except.error (SimError.panicAssertWidth (some v.width) w.width) := by rw [hsw]

/-- C5 witness: the amended statement on the concrete header
`! (wire, 2); a (wire, 3); !` — the matching-width re-declaration is a
no-op, the clashing-width one aborts. -/
theorem C5_witness :
    alloc_core [] [c5w_v, c5w_a, c5w_w] = alloc_core [] [c5w_v, c5w_a]
    ∧ alloc_core [] [c5w_v, c5w_a, c5w_w3]
        = Except.error (SimError.panicAssertWidth (some 2) 3) := by
  constructor
  · have h := (C5_amended [] [c5w_a] [] c5w_v c5w_w [] rfl (by decide) (by decide)
      (by decide) (Or.inl rfl)).1 rfl
    simpa using h
  · have h := (C5_amended [] [c5w_a] [] c5w_v c5w_w3 [] rfl (by decide) (by decide)
      (by decide) (Or.inl rfl)).2 ([("!", 0), ("a", 2)], [("!", 2), ("a", 3)], 5)
      (by decide)
    have h2 := h.2.2 (by decide)
    simpa using h2

end Wave
